import Mathlib

/-!
Verification development for the `ska` repository's tree model and merge
engine (`src/graph/graph.go`, package `graph`).

The Go code builds an in-memory tree of directory and file nodes and merges
several such trees with `Union`.  The embedding below translates that code
into pure Lean functions:

* `SkaffoldNode` is the node type.  In the source a directory stores
  `[]SkaffoldLink`; a link always carries `LinkType = RegularLink` and
  `Name = child.Key()` (both fields are write-only in the repository), so a
  link is represented here by its target node.  Parent pointers are
  navigational only and never read by the merge engine, so they are omitted.
* Go's in-place mutation is made explicit: `Union` returns the final value
  of the control tree (the merge result, which in Go is the mutated
  `control` pointer) together with the final values of the `add` trees
  (which Go also mutates in place).
* The recursion of `Union` is measured by an explicit `fuel` argument; the
  `UErr.fuel` error is an artifact of that embedding and corresponds to no
  behaviour of the source, which always terminates on finite trees.
* `crypto/md5` and `github.com/h2non/filetype` are external libraries; the
  embedding of `FileNode.SetContent` is parametric in the digest function
  and the content-type matcher, exactly as the source is generic in their
  behaviour.
-/

namespace Ska

/-- `type CollisionAction string` from the source. -/
abbrev CollisionAction := String

/-- `var ErrorOnCollision = CollisionAction("ERROR")`. -/
def ErrorOnCollision : CollisionAction := "ERROR"

/-- `var OverwriteOnCollision = CollisionAction("OVERWRITE")`. -/
def OverwriteOnCollision : CollisionAction := "OVERWRITE"

/-- `var YieldOnCollision = CollisionAction("YIELD")`. -/
def YieldOnCollision : CollisionAction := "YIELD"

/-- `var DefaultOnCollision = CollisionAction("DEFAULT")`. -/
def DefaultOnCollision : CollisionAction := "DEFAULT"

/-- `const NODETYPE_DIRECTORY = "DIRECTORY"`. -/
def NODETYPE_DIRECTORY : String := "DIRECTORY"

/-- `const NODETYPE_FILE = "FILE"`. -/
def NODETYPE_FILE : String := "FILE"

/-- `const FILEACTION_COPY = "COPY"`. -/
def FILEACTION_COPY : String := "COPY"

/-- `const FILEACTION_TEMPLATE = "TEMPLATE"`. -/
def FILEACTION_TEMPLATE : String := "TEMPLATE"

/-- `type MergeOptions struct { DefaultCollisionAction CollisionAction }`. -/
structure MergeOptions where
  DefaultCollisionAction : CollisionAction
deriving DecidableEq, Repr

/-- The node type of the tree model: `DirectoryNode` (fields `name`,
`children`) and `FileNode` (fields `name`, `action`, `datahash`,
`content_type`).  `datahash` is `nil` (`none`) until content is supplied;
`content_type` is the empty-value `none` until sniffed. -/
inductive SkaffoldNode where
  | dir (name : String) (children : List SkaffoldNode)
  | file (name : String) (action : String) (datahash : Option (List Nat))
      (content_type : Option String)

namespace SkaffoldNode

/-- `Key()` of a node: both variants return the `name` field. -/
def Key : SkaffoldNode → String
  | .dir name _ => name
  | .file name _ _ _ => name

/-- `Type()` of a node (named `Type'` because `Type` is reserved in Lean). -/
def Type' : SkaffoldNode → String
  | .dir _ _ => NODETYPE_DIRECTORY
  | .file _ _ _ _ => NODETYPE_FILE

/-- `Children()`: a directory's link targets in insertion order, the empty
slice for a file. -/
def Children : SkaffoldNode → List SkaffoldNode
  | .dir _ cs => cs
  | .file _ _ _ _ => []

/-- `CollisionAction()`: both `DirectoryNode` and `FileNode` return the
constant `DefaultOnCollision` (graph.go lines 64-66 and 153-155). -/
def CollisionAction : SkaffoldNode → CollisionAction
  | .dir _ _ => DefaultOnCollision
  | .file _ _ _ _ => DefaultOnCollision

/-- `AddChild(child)`: a directory appends a link (represented by its
target); a file fails with `cannot add child to a file node`. -/
def AddChild : SkaffoldNode → SkaffoldNode → Except String SkaffoldNode
  | .dir name cs, child => .ok (.dir name (cs ++ [child]))
  | .file name _ _ _, _ => .error ("cannot add child to a file node " ++ name)

/-- In-place replacement of a directory's children list (the effect of the
merge loop mutating `control`'s child slots); a file has no children list
and is unchanged. -/
def setChildren : SkaffoldNode → List SkaffoldNode → SkaffoldNode
  | .dir name _, cs => .dir name cs
  | f@(.file _ _ _ _), _ => f

/-- `u.AddChild(childFromAdd)` as invoked at graph.go line 262: the returned
error is discarded, so a failing `AddChild` leaves the receiver unchanged. -/
def addChildDiscard (u child : SkaffoldNode) : SkaffoldNode :=
  match u.AddChild child with
  | .ok v => v
  | .error _ => u

end SkaffoldNode

/-- `NewDirectoryNode(name)`. -/
def NewDirectoryNode (name : String) : SkaffoldNode := .dir name []

/-- `NewFileNode(name)`: action defaults to `COPY`, and files whose name
ends in `.tmpl` get `TEMPLATE`; content fields start unset. -/
def NewFileNode (name : String) : SkaffoldNode :=
  .file name
    (if name.endsWith ".tmpl" then FILEACTION_TEMPLATE else FILEACTION_COPY)
    none none

/-- `FileNode.SetContent(src)`, parametric in the external collaborators:
`md5Sum` stands for `crypto/md5.Sum` and `ftMatch` for
`filetype.Match` (returning `none` for `filetype.Unknown`).  A zero-length
`src` returns immediately; otherwise the content type is overwritten when
the matcher recognizes the bytes and the digest is stored.  The method
exists on `FileNode` only; the directory variant is untouched. -/
def SetContent (ftMatch : List Nat → Option String)
    (md5Sum : List Nat → List Nat) (n : SkaffoldNode) (src : List Nat) :
    SkaffoldNode :=
  match n with
  | .file name action _ content_type =>
    if src.length = 0 then n
    else
      .file name action (some (md5Sum src))
        (match ftMatch src with
         | some mime => some mime
         | none => content_type)
  | other => other

/-- Errors produced by `Union`, mirroring the `fmt.Errorf` calls of the
source: the mismatched-roots error and the two `%w`-wrapping messages.
`fuel` marks exhaustion of the embedding's recursion fuel and corresponds
to no source behaviour. -/
inductive UErr where
  | mismatchedRoots (addKey controlKey : String)
  | mergingChildren (e : UErr)
  | mergingExternal (e : UErr)
  | fuel
deriving DecidableEq, Repr

/-- Rendering of `UErr` as the Go error strings. -/
def UErr.msg : UErr → String
  | .mismatchedRoots k ck => "mismatched roots: " ++ k ++ " does not match " ++ ck
  | .mergingChildren e => "error merging children: " ++ e.msg
  | .mergingExternal e => "error merging external children: " ++ e.msg
  | .fuel => "recursion fuel exhausted"

/-- Writes the post-states of the recursively merged matching children back
into one children list: every child whose key is `k` is replaced, in order,
by the next replacement; the unconsumed replacements are returned for the
remaining trees. -/
def replaceMatched (k : String) :
    List SkaffoldNode → List SkaffoldNode →
      List SkaffoldNode × List SkaffoldNode
  | repl, [] => (repl, [])
  | [], c :: rest =>
    ((replaceMatched k [] rest).1, c :: (replaceMatched k [] rest).2)
  | r :: rs, c :: rest =>
    if c.Key == k then
      ((replaceMatched k rs rest).1, r :: (replaceMatched k rs rest).2)
    else
      ((replaceMatched k (r :: rs) rest).1,
        c :: (replaceMatched k (r :: rs) rest).2)

/-- Writes the post-states of the matching children (gathered across all
`add` trees in order) back into the `add` trees, tree by tree. -/
def writeBackTrees (k : String) :
    List SkaffoldNode → List SkaffoldNode → List SkaffoldNode
  | _, [] => []
  | repl, n :: ns =>
    n.setChildren (replaceMatched k repl n.Children).2 ::
      writeBackTrees k (replaceMatched k repl n.Children).1 ns

/-- The loop of `Union` over the control node's children (graph.go lines
220-241): for each control child `c`, gather every same-key child across
the `add` trees, recursively merge them into `c` (the call `uf`), and
thread the mutated states of the `add` trees to the next iteration.  A
failing recursive merge is wrapped as `error merging children`. -/
def mergeLoopWith
    (uf : SkaffoldNode → List SkaffoldNode →
      Except UErr (SkaffoldNode × List SkaffoldNode)) :
    List SkaffoldNode → List SkaffoldNode →
      Except UErr (List SkaffoldNode × List SkaffoldNode)
  | [], add => .ok ([], add)
  | c :: rest, add =>
    let matching := add.flatMap
      (fun n => n.Children.filter (fun ch => ch.Key == c.Key))
    match uf c matching with
    | .error e => .error (.mergingChildren e)
    | .ok (c', matching') =>
      match mergeLoopWith uf rest (writeBackTrees c.Key matching' add) with
      | .error e => .error e
      | .ok (rest', addFinal) => .ok (c' :: rest', addFinal)

/-- `Union(opts, control, add...)` (graph.go lines 205-267), with explicit
recursion fuel and explicit threading of the in-place mutation: the result
pair is (final value of `control` = the returned merged node, final values
of the `add` trees).

Control flow of the source, in order: return `control` unchanged when
`add` is empty; fail with `mismatched roots` on the first `add` tree whose
key differs from the control key; merge each control child with its
same-key overlay children (`mergeLoopWith`); combine the `add` trees among
themselves (recursive `Union` of `add[0]` with `add[1:]` when there are at
least two, wrapped as `error merging external children` on failure); append
to the control node every child of the combined view whose key was not
already merged, via `AddChild` with its error discarded. -/
def Union (fuel : Nat) (opts : MergeOptions) (control : SkaffoldNode)
    (add : List SkaffoldNode) :
    Except UErr (SkaffoldNode × List SkaffoldNode) :=
  match fuel with
  | 0 => .error .fuel
  | fuel' + 1 =>
    if add.isEmpty then .ok (control, add)
    else
      match add.find? (fun n => !(n.Key == control.Key)) with
      | some n => .error (.mismatchedRoots n.Key control.Key)
      | none =>
        match mergeLoopWith (fun c m => Union fuel' opts c m)
            control.Children add with
        | .error e => .error e
        | .ok (cs', add₁) =>
          let u₀ := control.setChildren cs'
          let mergedKeys := control.Children.map SkaffoldNode.Key
          match add₁ with
          | [] => .ok (u₀, add₁)
          | a0 :: rest =>
            let combined : Except UErr (SkaffoldNode × List SkaffoldNode) :=
              if rest.isEmpty then .ok (a0, rest)
              else
                match Union fuel' opts a0 rest with
                | .error e => .error (.mergingExternal e)
                | .ok (ac, rest') => .ok (ac, rest')
            match combined with
            | .error e => .error e
            | .ok (addChildren, rest') =>
              let u := addChildren.Children.foldl
                (fun x ch =>
                  if mergedKeys.contains ch.Key then x
                  else x.addChildDiscard ch) u₀
              .ok (u, addChildren :: rest')

/-- Whether a node is the directory variant (`Type() == NODETYPE_DIRECTORY`). -/
def SkaffoldNode.isDir : SkaffoldNode → Bool
  | .dir _ _ => true
  | .file _ _ _ _ => false

/-- The keys of a node's children, in order. -/
def childKeys (n : SkaffoldNode) : List String :=
  n.Children.map SkaffoldNode.Key

/-- Specified child-key order of the combined overlay view: the first
overlay's child keys, then each later overlay's child keys not contributed
by an earlier overlay, in overlay order and, within one overlay, in that
overlay's child order. -/
def combKeys : List (List String) → List String
  | [] => []
  | ks :: rest => ks ++ (combKeys rest).filter (fun k => !(ks.contains k))

/-! Concrete trees used by the evaluation theorems, mirroring the scenarios
of `src/graph/graph_test.go` and of the specification's testable
properties. -/

/-- Control tree `root/{dir1/{f1}, f_root}` of the two-way merge scenario. -/
def controlTwoWay : SkaffoldNode :=
  .dir "root" [.dir "dir1" [NewFileNode "f1"], NewFileNode "f_root"]

/-- Overlay tree `root/{dir1/{f2}, dir2/{f3}, f_add}` of the two-way merge
scenario. -/
def overlayTwoWay : SkaffoldNode :=
  .dir "root"
    [.dir "dir1" [NewFileNode "f2"], .dir "dir2" [NewFileNode "f3"],
      NewFileNode "f_add"]

/-- The merged tree the two-way scenario produces. -/
def mergedTwoWay : SkaffoldNode :=
  .dir "root"
    [.dir "dir1" [NewFileNode "f1", NewFileNode "f2"], NewFileNode "f_root",
      .dir "dir2" [NewFileNode "f3"], NewFileNode "f_add"]

/-- Control tree holding a File node `x` with content fingerprint `[1]`. -/
def controlCollision : SkaffoldNode :=
  .dir "root" [.file "x" "COPY" (some [1]) none]

/-- Overlay tree holding a File node `x` with the different fingerprint
`[2]`. -/
def overlayCollision : SkaffoldNode :=
  .dir "root" [.file "x" "COPY" (some [2]) none]

/-- Control tree holding a File node `y`. -/
def controlTypeClash : SkaffoldNode :=
  .dir "root" [.file "y" "COPY" (some [1]) none]

/-- Overlay tree holding a Directory node `y` (same key, other type). -/
def overlayTypeClash : SkaffoldNode :=
  .dir "root" [.dir "y" [NewFileNode "inner"]]

end Ska

namespace Ska

/-! ## Basic lemmas about the node operations -/

theorem addChildDiscard_dir (n : String) (cs : List SkaffoldNode)
    (c : SkaffoldNode) :
    (SkaffoldNode.dir n cs).addChildDiscard c = .dir n (cs ++ [c]) := rfl

theorem addChildDiscard_file (n a : String) (d : Option (List Nat))
    (t : Option String) (c : SkaffoldNode) :
    (SkaffoldNode.file n a d t).addChildDiscard c = .file n a d t := rfl

theorem setChildren_key (n : SkaffoldNode) (cs : List SkaffoldNode) :
    (n.setChildren cs).Key = n.Key := by
  cases n <;> rfl

theorem setChildren_isDir (n : SkaffoldNode) (cs : List SkaffoldNode) :
    (n.setChildren cs).isDir = n.isDir := by
  cases n <;> rfl

theorem isDir_iff (n : SkaffoldNode) :
    n.isDir = true ↔ ∃ nm cs, n = .dir nm cs := by
  cases n with
  | dir nm cs => simp [SkaffoldNode.isDir]
  | file _ _ _ _ => simp [SkaffoldNode.isDir]

/-- Folding the guarded `AddChild` step over a directory accumulator appends
exactly the children whose keys are not already merged. -/
theorem foldl_addStep_dir (mk : List String) (l : List SkaffoldNode)
    (nm : String) (acc : List SkaffoldNode) :
    l.foldl (fun (x ch : SkaffoldNode) => if mk.contains ch.Key then x
      else x.addChildDiscard ch) (SkaffoldNode.dir nm acc)
      = .dir nm (acc ++ l.filter (fun ch => !(mk.contains ch.Key))) := by
  induction l generalizing acc with
  | nil => simp
  | cons c l ih =>
    cases hb : mk.contains c.Key
    · simp only [List.foldl_cons, hb, Bool.false_eq_true, if_false,
        addChildDiscard_dir, List.filter_cons, Bool.not_false, if_true]
      rw [ih (acc ++ [c])]
      simp
    · simp only [List.foldl_cons, hb, if_true, List.filter_cons,
        Bool.not_true, Bool.false_eq_true, if_false]
      exact ih acc

/-- Folding the guarded `AddChild` step over a file accumulator is the
identity: every `AddChild` on a file fails and its error is discarded. -/
theorem foldl_addStep_file (mk : List String) (l : List SkaffoldNode)
    (nm a : String) (d : Option (List Nat)) (t : Option String) :
    l.foldl (fun (x ch : SkaffoldNode) => if mk.contains ch.Key then x
      else x.addChildDiscard ch) (SkaffoldNode.file nm a d t)
      = .file nm a d t := by
  induction l with
  | nil => rfl
  | cons c l ih =>
    cases hb : mk.contains c.Key <;>
      simp only [List.foldl_cons, hb, Bool.false_eq_true, if_false, if_true,
        addChildDiscard_file] <;> exact ih

theorem map_key_filter (mk : List String) (l : List SkaffoldNode) :
    (l.filter (fun ch => !(mk.contains ch.Key))).map SkaffoldNode.Key
      = (l.map SkaffoldNode.Key).filter (fun k => !(mk.contains k)) := by
  induction l with
  | nil => rfl
  | cons c l ih =>
    cases hb : mk.contains c.Key <;>
      simp only [List.filter_cons, List.map_cons, hb, Bool.not_false,
        Bool.not_true, Bool.false_eq_true, if_false, if_true, List.map_cons,
        ih]

/-! ## Lemmas about the merge loop and write-back -/

theorem writeBackTrees_length (k : String) (repl add : List SkaffoldNode) :
    (writeBackTrees k repl add).length = add.length := by
  induction add generalizing repl with
  | nil => rfl
  | cons n ns ih => simp [writeBackTrees, ih]

theorem matching_keys (add : List SkaffoldNode) (k : String) :
    ∀ ch ∈ add.flatMap (fun n => n.Children.filter (fun x => x.Key == k)),
      ch.Key = k := by
  intro ch hch
  simp only [List.mem_flatMap, List.mem_filter] at hch
  obtain ⟨n, hn, hmem, hk⟩ := hch
  exact eq_of_beq hk

theorem replaceMatched_spec (k : String) :
    ∀ (cs repl : List SkaffoldNode), (∀ r ∈ repl, r.Key = k) →
      ((replaceMatched k repl cs).2.map SkaffoldNode.Key
          = cs.map SkaffoldNode.Key ∧
        ∀ r ∈ (replaceMatched k repl cs).1, r.Key = k) := by
  intro cs
  induction cs with
  | nil =>
    intro repl hr
    constructor
    · simp [replaceMatched]
    · simp only [replaceMatched]
      exact hr
  | cons c rest ih =>
    intro repl hr
    match repl with
    | [] =>
      have h0 := ih [] (by intro r hr2; cases hr2)
      simp only [replaceMatched, List.map_cons]
      exact ⟨by rw [h0.1], h0.2⟩
    | r :: rs =>
      cases hkb : c.Key == k
      · have h0 := ih (r :: rs) hr
        simp only [replaceMatched, hkb, Bool.false_eq_true, if_false,
          List.map_cons]
        exact ⟨by rw [h0.1], h0.2⟩
      · have hkeq : c.Key = k := eq_of_beq hkb
        have hrk : r.Key = k := hr r (List.mem_cons_self _ _)
        have h0 := ih rs (fun x hx => hr x (List.mem_cons_of_mem _ hx))
        simp only [replaceMatched, hkb, if_true, List.map_cons]
        exact ⟨by rw [h0.1, hrk, hkeq], h0.2⟩

theorem writeBackTrees_maps (k : String) :
    ∀ (add repl : List SkaffoldNode), (∀ r ∈ repl, r.Key = k) →
      ((writeBackTrees k repl add).map SkaffoldNode.Key
          = add.map SkaffoldNode.Key ∧
        (writeBackTrees k repl add).map SkaffoldNode.isDir
          = add.map SkaffoldNode.isDir ∧
        (writeBackTrees k repl add).map childKeys = add.map childKeys) := by
  intro add
  induction add with
  | nil => intro repl hr; exact ⟨rfl, rfl, rfl⟩
  | cons n ns ih =>
    intro repl hr
    obtain ⟨h2, h1⟩ := replaceMatched_spec k n.Children repl hr
    obtain ⟨ka, kb, kc⟩ := ih _ h1
    refine ⟨?_, ?_, ?_⟩ <;> simp only [writeBackTrees, List.map_cons]
    · rw [setChildren_key, ka]
    · rw [setChildren_isDir, kb]
    · rw [kc]
      have : childKeys (n.setChildren (replaceMatched k repl n.Children).2)
          = childKeys n := by
        cases n with
        | dir nm cs =>
          simpa [childKeys, SkaffoldNode.setChildren, SkaffoldNode.Children]
            using h2
        | file _ _ _ _ => rfl
      rw [this]

theorem mergeLoopWith_length
    (uf : SkaffoldNode → List SkaffoldNode →
      Except UErr (SkaffoldNode × List SkaffoldNode)) :
    ∀ (cs add cs' add₁ : List SkaffoldNode),
      mergeLoopWith uf cs add = .ok (cs', add₁) →
        add₁.length = add.length := by
  intro cs
  induction cs with
  | nil =>
    intro add cs' add₁ h
    simp only [mergeLoopWith, Except.ok.injEq, Prod.mk.injEq] at h
    rw [← h.2]
  | cons c rest ih =>
    intro add cs' add₁ h
    simp only [mergeLoopWith] at h
    split at h
    · exact Except.noConfusion h
    · rename_i p c' matching' hu
      split at h
      · exact Except.noConfusion h
      · rename_i q rest' addF hm
        simp only [Except.ok.injEq, Prod.mk.injEq] at h
        rw [← h.2]
        rw [ih _ _ _ hm, writeBackTrees_length]

theorem mergeLoopWith_forall2
    (uf : SkaffoldNode → List SkaffoldNode →
      Except UErr (SkaffoldNode × List SkaffoldNode)) :
    ∀ (cs add cs' add₁ : List SkaffoldNode),
      mergeLoopWith uf cs add = .ok (cs', add₁) →
        List.Forall₂ (fun c c' => ∃ m r, uf c m = .ok (c', r)) cs cs' := by
  intro cs
  induction cs with
  | nil =>
    intro add cs' add₁ h
    simp only [mergeLoopWith, Except.ok.injEq, Prod.mk.injEq] at h
    rw [← h.1]
    exact List.Forall₂.nil
  | cons c rest ih =>
    intro add cs' add₁ h
    simp only [mergeLoopWith] at h
    split at h
    · exact Except.noConfusion h
    · rename_i p c' matching' hu
      split at h
      · exact Except.noConfusion h
      · rename_i q rest' addF hm
        simp only [Except.ok.injEq, Prod.mk.injEq] at h
        rw [← h.1]
        exact List.Forall₂.cons ⟨_, _, hu⟩ (ih _ _ _ hm)

theorem mergeLoopWith_preserves
    (uf : SkaffoldNode → List SkaffoldNode →
      Except UErr (SkaffoldNode × List SkaffoldNode))
    (HK : ∀ c m c' m', uf c m = .ok (c', m') →
      c'.Key = c.Key ∧ m'.map SkaffoldNode.Key = m.map SkaffoldNode.Key) :
    ∀ (cs add cs' add₁ : List SkaffoldNode),
      mergeLoopWith uf cs add = .ok (cs', add₁) →
      cs'.map SkaffoldNode.Key = cs.map SkaffoldNode.Key ∧
      add₁.map SkaffoldNode.Key = add.map SkaffoldNode.Key ∧
      add₁.map SkaffoldNode.isDir = add.map SkaffoldNode.isDir ∧
      add₁.map childKeys = add.map childKeys := by
  intro cs
  induction cs with
  | nil =>
    intro add cs' add₁ h
    simp only [mergeLoopWith, Except.ok.injEq, Prod.mk.injEq] at h
    rw [← h.1, ← h.2]
    exact ⟨rfl, rfl, rfl, rfl⟩
  | cons c rest ih =>
    intro add cs' add₁ h
    simp only [mergeLoopWith] at h
    split at h
    · exact Except.noConfusion h
    · rename_i p c' matching' hu
      split at h
      · exact Except.noConfusion h
      · rename_i q rest' addF hm
        simp only [Except.ok.injEq, Prod.mk.injEq] at h
        obtain ⟨hck, hmk⟩ := HK _ _ _ _ hu
        have hallk : ∀ r ∈ matching', r.Key = c.Key := by
          intro r hrm
          have hmem : r.Key ∈ matching'.map SkaffoldNode.Key :=
            List.mem_map_of_mem _ hrm
          rw [hmk] at hmem
          obtain ⟨x, hx, hxk⟩ := List.mem_map.mp hmem
          rw [← hxk]
          exact matching_keys add c.Key x hx
        obtain ⟨wa, wb, wc⟩ := writeBackTrees_maps c.Key add matching' hallk
        obtain ⟨ia, ib, ic, id⟩ := ih _ _ _ hm
        rw [← h.1, ← h.2]
        refine ⟨?_, ?_, ?_, ?_⟩
        · simp only [List.map_cons, hck, ia]
        · rw [ib, wa]
        · rw [ic, wb]
        · rw [id, wc]

/-! ## Inversion of a successful `Union` call -/

/-- Unfolding a successful `Union` call with at least one overlay: the root
keys all match, the merge loop succeeded, the overlays were combined among
themselves (`add[0]` merged with `add[1:]` when there are at least two),
and the result is the control node with the not-yet-merged children of the
combined overlay appended. -/
theorem Union_succ_ok (fuel : Nat) (opts : MergeOptions)
    (control : SkaffoldNode) (add : List SkaffoldNode) (u : SkaffoldNode)
    (add' : List SkaffoldNode)
    (h : Union (fuel + 1) opts control add = .ok (u, add'))
    (hne : add ≠ []) :
    (∀ a ∈ add, a.Key = control.Key) ∧
    ∃ cs' a0 rest,
      mergeLoopWith (fun c m => Union fuel opts c m) control.Children add
        = .ok (cs', a0 :: rest) ∧
      ∃ addChildren rest',
        ((rest = [] ∧ addChildren = a0 ∧ rest' = ([] : List SkaffoldNode)) ∨
          (rest ≠ [] ∧ Union fuel opts a0 rest = .ok (addChildren, rest'))) ∧
        u = addChildren.Children.foldl
          (fun (x ch : SkaffoldNode) =>
            if (control.Children.map SkaffoldNode.Key).contains ch.Key then x
            else x.addChildDiscard ch) (control.setChildren cs') ∧
        add' = addChildren :: rest' := by
  have hie : add.isEmpty = false := by
    cases add with
    | nil => exact absurd rfl hne
    | cons a as => rfl
  simp only [Union, hie, Bool.false_eq_true, if_false] at h
  split at h
  · exact Except.noConfusion h
  · rename_i hfind
    have hroots : ∀ a ∈ add, a.Key = control.Key := by
      intro a ha
      have hp := List.find?_eq_none.mp hfind a ha
      simpa using hp
    refine ⟨hroots, ?_⟩
    split at h
    · exact Except.noConfusion h
    · rename_i p cs' add₁ hml
      split at h
      · -- the merge loop cannot shrink the overlay list to nothing
        have hlen := mergeLoopWith_length _ _ _ _ _ hml
        cases add with
        | nil => exact absurd rfl hne
        | cons a as => simp at hlen
      · rename_i a0 rest
        refine ⟨cs', a0, rest, hml, ?_⟩
        split at h
        · exact Except.noConfusion h
        · rename_i q ac rest' hre
          simp only [Except.ok.injEq, Prod.mk.injEq] at h
          refine ⟨ac, rest', ?_, h.1.symm, h.2.symm⟩
          split at hre
          · rename_i hrie
            have hrnil : rest = [] := List.isEmpty_iff.mp hrie
            simp only [Except.ok.injEq, Prod.mk.injEq] at hre
            exact .inl ⟨hrnil, hre.1.symm, by rw [← hre.2, hrnil]⟩
          · rename_i hrie
            have hrne : rest ≠ [] := by
              intro hx
              rw [hx] at hrie
              exact hrie rfl
            split at hre
            · exact Except.noConfusion hre
            · rename_i q2 ac2 rest2 hu2
              simp only [Except.ok.injEq, Prod.mk.injEq] at hre
              rw [← hre.1, ← hre.2]
              exact .inr ⟨hrne, hu2⟩

/-! ## Shape-preservation of `Union` -/

/-- A successful `Union` whose control node is a File returns that File
node unchanged: files have no children to merge, and every appending
`AddChild` on a file fails with its error discarded. -/
theorem Union_ok_file_id (fuel : Nat) (opts : MergeOptions)
    (nm a : String) (d : Option (List Nat)) (t : Option String)
    (add : List SkaffoldNode) (u : SkaffoldNode) (add' : List SkaffoldNode)
    (h : Union fuel opts (.file nm a d t) add = .ok (u, add')) :
    u = .file nm a d t := by
  cases fuel with
  | zero =>
    simp only [Union] at h
    exact Except.noConfusion h
  | succ fuel =>
    by_cases hne : add = []
    · subst hne
      simp only [Union, List.isEmpty_nil, if_true, Except.ok.injEq,
        Prod.mk.injEq] at h
      exact h.1.symm
    · obtain ⟨_, cs', a0, rest, hml, addChildren, rest', _, hu, _⟩ :=
        Union_succ_ok fuel opts _ add u add' h hne
      rw [hu]
      exact foldl_addStep_file _ _ _ _ _ _

/-- The structural invariant of a successful `Union` call, proved by
induction on the fuel: the merged node keeps the control node's key and
variant; the overlay post-states keep their root keys and variants
positionally; and for a directory control whose overlays are all
directories, the merged child-key sequence is the control's child keys
followed by the not-yet-present keys of the combined overlay view in
first-contributor order. -/
theorem Union_master :
    ∀ (fuel : Nat) (opts : MergeOptions) (control : SkaffoldNode)
      (add : List SkaffoldNode) (u : SkaffoldNode)
      (add' : List SkaffoldNode),
      Union fuel opts control add = .ok (u, add') →
      u.Key = control.Key ∧
      u.isDir = control.isDir ∧
      add'.map SkaffoldNode.Key = add.map SkaffoldNode.Key ∧
      add'.map SkaffoldNode.isDir = add.map SkaffoldNode.isDir ∧
      (∀ nm cs, control = .dir nm cs → (∀ b ∈ add, b.isDir = true) →
        childKeys u = cs.map SkaffoldNode.Key ++
          (combKeys (add.map childKeys)).filter
            (fun k => !((cs.map SkaffoldNode.Key).contains k))) := by
  intro fuel
  induction fuel with
  | zero =>
    intro opts control add u add' h
    simp only [Union] at h
    exact Except.noConfusion h
  | succ fuel ih =>
    intro opts control add u add' h
    by_cases hne : add = []
    · subst hne
      simp only [Union, List.isEmpty_nil, if_true, Except.ok.injEq,
        Prod.mk.injEq] at h
      obtain ⟨hu, ha⟩ := h
      subst hu
      rw [← ha]
      refine ⟨rfl, rfl, rfl, rfl, ?_⟩
      intro nm cs hc _
      subst hc
      simp [childKeys, SkaffoldNode.Children, combKeys]
    · obtain ⟨hroots, cs', a0, rest, hml, addChildren, rest', hcomb, hu,
        hadd⟩ := Union_succ_ok fuel opts control add u add' h hne
      have HK : ∀ c m c' m', Union fuel opts c m = .ok (c', m') →
          c'.Key = c.Key ∧
          m'.map SkaffoldNode.Key = m.map SkaffoldNode.Key := by
        intro c m c' m' hcm
        obtain ⟨h1, _, h2, _, _⟩ := ih opts c m c' m' hcm
        exact ⟨h1, h2⟩
      obtain ⟨hcsK, haK, haD, haC⟩ :=
        mergeLoopWith_preserves _ HK control.Children add _ _ hml
      have hacShape : addChildren.Key = a0.Key ∧
          addChildren.isDir = a0.isDir ∧
          rest'.map SkaffoldNode.Key = rest.map SkaffoldNode.Key ∧
          rest'.map SkaffoldNode.isDir = rest.map SkaffoldNode.isDir := by
        rcases hcomb with ⟨hr0, hac, hr1⟩ | ⟨hrne, hu2⟩
        · subst hac
          subst hr1
          subst hr0
          exact ⟨rfl, rfl, rfl, rfl⟩
        · obtain ⟨k1, k2, k3, k4, _⟩ := ih opts a0 rest addChildren rest' hu2
          exact ⟨k1, k2, k3, k4⟩
      refine ⟨?_, ?_, ?_, ?_, ?_⟩
      · rw [hu]
        cases control with
        | file nm a d t =>
          rw [show SkaffoldNode.setChildren (.file nm a d t) cs'
              = .file nm a d t from rfl]
          rw [foldl_addStep_file]
        | dir nm cs =>
          rw [show SkaffoldNode.setChildren (.dir nm cs) cs'
              = .dir nm cs' from rfl]
          rw [foldl_addStep_dir]
          rfl
      · rw [hu]
        cases control with
        | file nm a d t =>
          rw [show SkaffoldNode.setChildren (.file nm a d t) cs'
              = .file nm a d t from rfl]
          rw [foldl_addStep_file]
        | dir nm cs =>
          rw [show SkaffoldNode.setChildren (.dir nm cs) cs'
              = .dir nm cs' from rfl]
          rw [foldl_addStep_dir]
          rfl
      · rw [hadd, ← haK]
        simp only [List.map_cons, hacShape.1, hacShape.2.2.1]
      · rw [hadd, ← haD]
        simp only [List.map_cons, hacShape.2.1, hacShape.2.2.2]
      · intro nm cs hc hdirs
        subst hc
        have hdirs1 : ∀ b ∈ a0 :: rest, b.isDir = true := by
          intro b hb
          have hmem : b.isDir ∈ (a0 :: rest).map SkaffoldNode.isDir :=
            List.mem_map_of_mem _ hb
          rw [haD] at hmem
          obtain ⟨x, hx, hxe⟩ := List.mem_map.mp hmem
          rw [← hxe]
          exact hdirs x hx
        have hcsK2 : cs'.map SkaffoldNode.Key = cs.map SkaffoldNode.Key := by
          simpa [SkaffoldNode.Children] using hcsK
        have hcombEq : combKeys (add.map childKeys)
            = childKeys addChildren := by
          rw [← haC]
          rcases hcomb with ⟨hr0, hac, _⟩ | ⟨hrne, hu2⟩
          · subst hac
            subst hr0
            simp [combKeys]
          · obtain ⟨nm1, cs1, ha0⟩ :=
              (isDir_iff a0).mp (hdirs1 a0 (List.mem_cons_self _ _))
            have hdirsR : ∀ b ∈ rest, b.isDir = true := fun b hb =>
              hdirs1 b (List.mem_cons_of_mem _ hb)
            have hspec :=
              (ih opts a0 rest addChildren rest' hu2).2.2.2.2 nm1 cs1 ha0
                hdirsR
            have hck0 : childKeys a0 = cs1.map SkaffoldNode.Key := by
              rw [ha0]
              rfl
            simp only [List.map_cons, combKeys, hck0]
            rw [hspec]
        rw [hu]
        rw [show SkaffoldNode.setChildren (.dir nm cs) cs'
            = .dir nm cs' from rfl]
        simp only [SkaffoldNode.Children, List.map_cons] at *
        rw [foldl_addStep_dir]
        show (cs' ++ addChildren.Children.filter
            (fun ch => !((cs.map SkaffoldNode.Key).contains ch.Key))).map
              SkaffoldNode.Key = _
        rw [List.map_append, hcsK2, map_key_filter, hcombEq]
        rfl

/-! ## Claim theorems -/

/-- C4: for every merge options value and every tree `T`, `Union` with `T`
as control and zero overlay trees succeeds and returns `T` itself
unchanged (same node, same children in the same order), with no error. -/
theorem union_no_overlays_is_identity (fuel : Nat) (opts : MergeOptions)
    (T : SkaffoldNode) :
    Union (fuel + 1) opts T [] = .ok (T, []) := rfl

/-- C10: `CollisionAction()` returns `DefaultOnCollision` on every node of
either variant; since this holds of every `SkaffoldNode` whatsoever, no
operation of the interface can produce a node with a non-default per-node
collision action. -/
theorem collisionAction_always_default (n : SkaffoldNode) :
    n.CollisionAction = DefaultOnCollision := by
  cases n <;> rfl

/-- C8: `SetContent` on a File node with a zero-length byte sequence is a
no-op (fingerprint and content type exactly as before), and a call with a
non-empty byte sequence stores the digest and, when the matcher recognizes
the leading bytes, the sniffed content type; this holds for every external
digest function and matcher. -/
theorem setContent_empty_noop (ftM : List Nat → Option String)
    (md5 : List Nat → List Nat) (nm a : String) (dh : Option (List Nat))
    (ct : Option String) :
    SetContent ftM md5 (.file nm a dh ct) [] = .file nm a dh ct ∧
    ∀ src : List Nat, src ≠ [] →
      SetContent ftM md5 (.file nm a dh ct) src =
        .file nm a (some (md5 src))
          (match ftM src with
           | some mime => some mime
           | none => ct) := by
  constructor
  · rfl
  · intro src hsrc
    have hlen : ¬ src.length = 0 := by
      simpa [List.length_eq_zero] using hsrc
    simp only [SetContent]
    rw [if_neg hlen]

/-- Witness for C8: a non-empty one-byte content sets the fingerprint. -/
theorem setContent_empty_noop_witness :
    SetContent (fun _ => none) (fun l => l)
      (.file "a.txt" "COPY" none none) [7]
      = .file "a.txt" "COPY" (some [7]) none :=
  (setContent_empty_noop (fun _ => none) (fun l => l) "a.txt" "COPY" none
    none).2 [7] (by decide)

/-- C1 (divergence witness): with `DefaultCollisionAction =
ErrorOnCollision`, a control File `x` with fingerprint `[1]` and an overlay
File `x` with fingerprint `[2]` at the same level, `Union` succeeds and
keeps the control-side node — the implementation never produces a
`ContentCollision` error. -/
theorem union_content_collision_not_detected :
    Union 3 ⟨ErrorOnCollision⟩ controlCollision [overlayCollision]
      = .ok (controlCollision, [overlayCollision]) := rfl

/-- C2 (divergence witness): a control File `y` and an overlay Directory
`y` share a key at the same level, yet `Union` succeeds, silently keeping
the control-side File node (the failing `AddChild` at graph.go:262 is
discarded) — no `TypeMismatch` error exists in the implementation. -/
theorem union_type_mismatch_not_detected :
    Union 4 ⟨ErrorOnCollision⟩ controlTypeClash [overlayTypeClash]
      = .ok (controlTypeClash, [overlayTypeClash]) := rfl

/-- C6: merging `root/{dir1/{f1}, f_root}` with
`root/{dir1/{f2}, dir2/{f3}, f_add}` succeeds; the merged root has exactly
the four children `dir1, f_root, dir2, f_add` and the merged `dir1` has
exactly the two children `f1, f2`; every input node occurs exactly once. -/
theorem union_two_way_merge :
    Union 5 ⟨ErrorOnCollision⟩ controlTwoWay [overlayTwoWay]
      = .ok (mergedTwoWay, [overlayTwoWay]) ∧
    mergedTwoWay.Children.map SkaffoldNode.Key
      = ["dir1", "f_root", "dir2", "f_add"] ∧
    mergedTwoWay.Children.length = 4 ∧
    mergedTwoWay.Children.map childKeys
      = [["f1", "f2"], [], ["f3"], []] :=
  ⟨rfl, rfl, rfl, rfl⟩

/-- C3: when some overlay root key differs from the control root key,
`Union` fails with the mismatched-roots error naming both keys (the first
offending overlay in argument order), and returns no merged tree; the
check precedes every merge step. -/
theorem union_mismatched_roots_fails (fuel : Nat) (opts : MergeOptions)
    (control : SkaffoldNode) (add : List SkaffoldNode) (n : SkaffoldNode)
    (hmem : n ∈ add) (hk : n.Key ≠ control.Key) :
    ∃ m ∈ add, m.Key ≠ control.Key ∧
      Union (fuel + 1) opts control add
        = .error (.mismatchedRoots m.Key control.Key) ∧
      (UErr.mismatchedRoots m.Key control.Key).msg
        = "mismatched roots: " ++ m.Key ++ " does not match "
            ++ control.Key := by
  have hie : add.isEmpty = false := by
    cases add with
    | nil => cases hmem
    | cons a as => rfl
  have hsome : (add.find? (fun x => !(x.Key == control.Key))).isSome := by
    rw [List.find?_isSome]
    exact ⟨n, hmem, by simp [hk]⟩
  obtain ⟨m, hm⟩ := Option.isSome_iff_exists.mp hsome
  have hpm := List.find?_some hm
  have hmm : m ∈ add := List.mem_of_find?_eq_some hm
  refine ⟨m, hmm, by simpa using hpm, ?_, rfl⟩
  simp only [Union, hie, Bool.false_eq_true, if_false, hm]

/-- Witness for C3 at concrete roots `a` and `b`. -/
theorem union_mismatched_roots_fails_witness :
    ∃ m ∈ [SkaffoldNode.dir "b" []],
      m.Key ≠ (SkaffoldNode.dir "a" []).Key ∧
      Union 1 ⟨ErrorOnCollision⟩ (.dir "a" []) [.dir "b" []]
        = .error (.mismatchedRoots m.Key (SkaffoldNode.dir "a" []).Key) ∧
      (UErr.mismatchedRoots m.Key (SkaffoldNode.dir "a" []).Key).msg
        = "mismatched roots: " ++ m.Key ++ " does not match "
            ++ (SkaffoldNode.dir "a" []).Key :=
  union_mismatched_roots_fails 0 ⟨ErrorOnCollision⟩ (.dir "a" [])
    [.dir "b" []] (.dir "b" []) (List.Mem.head _) (by decide)

theorem forall2_append_cons {α β : Type} {R : α → β → Prop} :
    ∀ (csa : List α) (x : α) (csb : List α) (cs' : List β),
      List.Forall₂ R (csa ++ x :: csb) cs' →
      ∃ csa' x' csb', cs' = csa' ++ x' :: csb' ∧ List.Forall₂ R csa csa' ∧
        R x x' ∧ List.Forall₂ R csb csb' := by
  intro csa
  induction csa with
  | nil =>
    intro x csb cs' h
    rw [List.nil_append] at h
    cases h with
    | cons hx ht => exact ⟨[], _, _, rfl, List.Forall₂.nil, hx, ht⟩
  | cons a as ih =>
    intro x csb cs' h
    rw [List.cons_append] at h
    cases h with
    | cons ha ht =>
      obtain ⟨csa', x', csb', rfl, hf1, hf2, hf3⟩ := ih x csb _ ht
      exact ⟨_ :: csa', x', csb', rfl, List.Forall₂.cons ha hf1, hf2, hf3⟩

theorem forall2_map_key {R : SkaffoldNode → SkaffoldNode → Prop}
    (hR : ∀ c c', R c c' → SkaffoldNode.Key c' = SkaffoldNode.Key c) :
    ∀ {l l' : List SkaffoldNode}, List.Forall₂ R l l' →
      l'.map SkaffoldNode.Key = l.map SkaffoldNode.Key := by
  intro l l' h
  induction h with
  | nil => rfl
  | cons hx ht ih => simp [List.map_cons, hR _ _ hx, ih]

/-- C7: in every successful merge of a directory control with directory
overlays, the merged children are the control's children (same keys, same
order, updated in place) followed by the newly contributed overlay
children, whose keys appear in combined-overlay order: first overlay's
child order first, then each later overlay's not-yet-seen keys in overlay
order. -/
theorem union_ordering_guarantee (fuel : Nat) (opts : MergeOptions)
    (nm : String) (cs add : List SkaffoldNode) (u : SkaffoldNode)
    (add' : List SkaffoldNode)
    (h : Union (fuel + 1) opts (.dir nm cs) add = .ok (u, add'))
    (hdirs : ∀ b ∈ add, b.isDir = true) :
    ∃ cs' news, u = .dir nm (cs' ++ news) ∧
      cs'.map SkaffoldNode.Key = cs.map SkaffoldNode.Key ∧
      news.map SkaffoldNode.Key
        = (combKeys (add.map childKeys)).filter
            (fun k => !((cs.map SkaffoldNode.Key).contains k)) := by
  obtain ⟨hKey, hDir, _, _, hck⟩ := Union_master (fuel + 1) opts _ add u add' h
  have hform := hck nm cs rfl hdirs
  have hud : u.isDir = true := by
    rw [hDir]
    rfl
  obtain ⟨nm2, l, hul⟩ := (isDir_iff u).mp hud
  subst hul
  have hnm : nm2 = nm := by
    simpa [SkaffoldNode.Key] using hKey
  subst hnm
  have hlK : l.map SkaffoldNode.Key
      = cs.map SkaffoldNode.Key ++
        (combKeys (add.map childKeys)).filter
          (fun k => !((cs.map SkaffoldNode.Key).contains k)) := by
    simpa [childKeys, SkaffoldNode.Children] using hform
  refine ⟨l.take cs.length, l.drop cs.length,
    by rw [List.take_append_drop], ?_, ?_⟩
  · rw [List.map_take, hlK,
      show cs.length = (cs.map SkaffoldNode.Key).length from
        (List.length_map _ _).symm]
    exact List.take_left _ _
  · rw [List.map_drop, hlK,
      show cs.length = (cs.map SkaffoldNode.Key).length from
        (List.length_map _ _).symm]
    exact List.drop_left _ _

/-- Witness for C7: one control child `k1` and an overlay contributing
`k1` (already present) and `k2` (new). -/
theorem union_ordering_guarantee_witness :
    ∃ cs' news,
      SkaffoldNode.dir "root" [NewFileNode "k1", NewFileNode "k2"]
        = .dir "root" (cs' ++ news) ∧
      cs'.map SkaffoldNode.Key
        = ([NewFileNode "k1"] : List SkaffoldNode).map SkaffoldNode.Key ∧
      news.map SkaffoldNode.Key
        = (combKeys
            (([SkaffoldNode.dir "root" [NewFileNode "k1", NewFileNode "k2"]]
              : List SkaffoldNode).map childKeys)).filter
            (fun k =>
              !((([NewFileNode "k1"] : List SkaffoldNode).map
                  SkaffoldNode.Key).contains k)) :=
  union_ordering_guarantee 3 ⟨ErrorOnCollision⟩ "root" [NewFileNode "k1"]
    [.dir "root" [NewFileNode "k1", NewFileNode "k2"]]
    (.dir "root" [NewFileNode "k1", NewFileNode "k2"])
    [.dir "root" [NewFileNode "k1", NewFileNode "k2"]] rfl (by decide)

/-- C9: in every successful `Union` with at least two overlays, the first
overlay's post-state is the recursive merge of the (written-back) first
overlay with all later overlays — the later overlays' unique children are
appended into it — so the overlay trees passed to `Union` are not
preserved unchanged, as the concrete second conjunct shows: merging
`root/{}` with overlays `root/{a}` and `root/{b}` leaves the first overlay
holding both `a` and `b`. -/
theorem union_mutates_first_overlay :
    (∀ (fuel : Nat) (opts : MergeOptions) (control o1 o2 : SkaffoldNode)
      (os : List SkaffoldNode) (u : SkaffoldNode)
      (add' : List SkaffoldNode),
      Union (fuel + 1) opts control (o1 :: o2 :: os) = .ok (u, add') →
      ∃ cs' o1₁ rest₁ o1' rest',
        mergeLoopWith (fun c m => Union fuel opts c m) control.Children
          (o1 :: o2 :: os) = .ok (cs', o1₁ :: rest₁) ∧
        Union fuel opts o1₁ rest₁ = .ok (o1', rest') ∧
        add' = o1' :: rest') ∧
    (Union 4 ⟨ErrorOnCollision⟩ (.dir "root" [])
        [.dir "root" [NewFileNode "a"], .dir "root" [NewFileNode "b"]]
      = .ok (.dir "root" [NewFileNode "a", NewFileNode "b"],
          [.dir "root" [NewFileNode "a", NewFileNode "b"],
            .dir "root" [NewFileNode "b"]]) ∧
      (SkaffoldNode.dir "root"
          [NewFileNode "a", NewFileNode "b"]).Children.map SkaffoldNode.Key
        ≠ (SkaffoldNode.dir "root" [NewFileNode "a"]).Children.map
            SkaffoldNode.Key) := by
  constructor
  · intro fuel opts control o1 o2 os u add' h
    obtain ⟨_, cs', a0, rest, hml, addChildren, rest', hcomb, hu, hadd⟩ :=
      Union_succ_ok fuel opts control _ u add' h (by simp)
    have hlen := mergeLoopWith_length _ _ _ _ _ hml
    rcases hcomb with ⟨hr0, _, _⟩ | ⟨hrne, hu2⟩
    · subst hr0
      simp only [List.length_cons, List.length_nil] at hlen
      omega
    · exact ⟨cs', a0, rest, addChildren, rest', hml, hu2, hadd⟩
  · exact ⟨rfl, by decide⟩

/-- Witness for C9's universal part at the concrete three-way scenario. -/
theorem union_mutates_first_overlay_witness :
    ∃ cs' o1₁ rest₁ o1' rest',
      mergeLoopWith (fun c m => Union 3 ⟨ErrorOnCollision⟩ c m)
        (SkaffoldNode.dir "root" []).Children
        [.dir "root" [NewFileNode "a"], .dir "root" [NewFileNode "b"]]
        = .ok (cs', o1₁ :: rest₁) ∧
      Union 3 ⟨ErrorOnCollision⟩ o1₁ rest₁ = .ok (o1', rest') ∧
      [SkaffoldNode.dir "root" [NewFileNode "a", NewFileNode "b"],
        SkaffoldNode.dir "root" [NewFileNode "b"]] = o1' :: rest' :=
  union_mutates_first_overlay.1 3 ⟨ErrorOnCollision⟩ (.dir "root" [])
    (.dir "root" [NewFileNode "a"]) (.dir "root" [NewFileNode "b"]) []
    (.dir "root" [NewFileNode "a", NewFileNode "b"])
    [.dir "root" [NewFileNode "a", NewFileNode "b"],
      .dir "root" [NewFileNode "b"]] rfl

theorem filter_key_filter_not_contains (mk : List String) (x : String)
    (l : List SkaffoldNode) (hx : mk.contains x = true) :
    (l.filter (fun (ch : SkaffoldNode) => !(mk.contains ch.Key))).filter
      (fun (ch : SkaffoldNode) => ch.Key == x) = [] := by
  rw [List.filter_eq_nil_iff]
  intro c hc
  obtain ⟨hcmem, hcnot⟩ := List.mem_filter.mp hc
  have hcnot2 : (!(mk.contains c.Key)) = true := hcnot
  intro hcx
  have hceq : c.Key = x := by simpa using hcx
  rw [hceq, hx] at hcnot2
  simp at hcnot2

/-- C5: with `DefaultCollisionAction = OverwriteOnCollision`, when the
control and an overlay hold same-key File nodes `x` with differing present
fingerprints, the merged tree holds at key `x` exactly the control-side
File node — so the control fingerprint wins and the overlay content at `x`
is discarded. -/
theorem union_overwrite_keeps_control_fingerprint (fuel : Nat)
    (opts : MergeOptions) (r x a1 a2 : String) (h1 h2 : List Nat)
    (t1 t2 : Option String) (csa csb os : List SkaffoldNode)
    (u : SkaffoldNode) (add' : List SkaffoldNode)
    (hopts : opts.DefaultCollisionAction = OverwriteOnCollision)
    (hdiff : h1 ≠ h2)
    (hkeys : ∀ c ∈ csa ++ csb, c.Key ≠ x)
    (hov : (SkaffoldNode.file x a2 (some h2) t2) ∈ os)
    (h : Union (fuel + 1) opts
      (.dir r (csa ++ .file x a1 (some h1) t1 :: csb)) [.dir r os]
      = .ok (u, add')) :
    u.Children.filter (fun ch => ch.Key == x)
      = [.file x a1 (some h1) t1] := by
  obtain ⟨_, cs', a0, rest, hml, addChildren, rest', hcomb, hu, hadd⟩ :=
    Union_succ_ok fuel opts _ _ u add' h (by simp)
  have hlen := mergeLoopWith_length _ _ _ _ _ hml
  have hrnil : rest = [] := by
    cases rest with
    | nil => rfl
    | cons b bs =>
      simp only [List.length_cons, List.length_nil] at hlen
      omega
  subst hrnil
  have haddc : addChildren = a0 := by
    rcases hcomb with ⟨_, hac, _⟩ | ⟨hrne, _⟩
    · exact hac
    · exact absurd rfl hrne
  subst haddc
  have hfa := mergeLoopWith_forall2 _ _ _ _ _ hml
  rw [show (SkaffoldNode.dir r
      (csa ++ .file x a1 (some h1) t1 :: csb)).Children
      = csa ++ .file x a1 (some h1) t1 :: csb from rfl] at hfa
  obtain ⟨csa', x', csb', hcs, hfa1, hfx, hfa2⟩ :=
    forall2_append_cons _ _ _ _ hfa
  obtain ⟨mm, rr, hmx⟩ := hfx
  have hx' : x' = .file x a1 (some h1) t1 :=
    Union_ok_file_id _ _ _ _ _ _ _ _ _ hmx
  subst hx'
  have hRkey : ∀ c c',
      (∃ m rr2, Union fuel opts c m = .ok (c', rr2)) →
      SkaffoldNode.Key c' = SkaffoldNode.Key c := by
    intro c c' hr
    obtain ⟨m2, r2, hm2⟩ := hr
    exact (Union_master fuel opts c m2 c' r2 hm2).1
  have hKcsa : csa'.map SkaffoldNode.Key = csa.map SkaffoldNode.Key :=
    forall2_map_key hRkey hfa1
  have hKcsb : csb'.map SkaffoldNode.Key = csb.map SkaffoldNode.Key :=
    forall2_map_key hRkey hfa2
  rw [show SkaffoldNode.setChildren
      (.dir r (csa ++ .file x a1 (some h1) t1 :: csb)) cs'
      = .dir r cs' from rfl] at hu
  rw [foldl_addStep_dir] at hu
  subst hcs
  rw [hu]
  simp only [SkaffoldNode.Children]
  have hxmem : x ∈ List.map SkaffoldNode.Key
      (csa ++ SkaffoldNode.file x a1 (some h1) t1 :: csb) := by
    rw [List.map_append, List.map_cons]
    exact List.mem_append_right _ (List.mem_cons_self _ _)
  have hfiltA : csa'.filter (fun ch => ch.Key == x) = [] := by
    rw [List.filter_eq_nil_iff]
    intro c hc
    have hmemK : c.Key ∈ csa'.map SkaffoldNode.Key :=
      List.mem_map_of_mem _ hc
    rw [hKcsa] at hmemK
    obtain ⟨o, ho, hoe⟩ := List.mem_map.mp hmemK
    have hnx : o.Key ≠ x := hkeys o (List.mem_append_left _ ho)
    rw [hoe] at hnx
    simpa using hnx
  have hfiltB : csb'.filter (fun ch => ch.Key == x) = [] := by
    rw [List.filter_eq_nil_iff]
    intro c hc
    have hmemK : c.Key ∈ csb'.map SkaffoldNode.Key :=
      List.mem_map_of_mem _ hc
    rw [hKcsb] at hmemK
    obtain ⟨o, ho, hoe⟩ := List.mem_map.mp hmemK
    have hnx : o.Key ≠ x := hkeys o (List.mem_append_right _ ho)
    rw [hoe] at hnx
    simpa using hnx
  have hcont : (List.map SkaffoldNode.Key
      (csa ++ SkaffoldNode.file x a1 (some h1) t1 :: csb)).contains x
        = true :=
    List.elem_eq_true_of_mem hxmem
  rw [List.filter_append, List.filter_append, List.filter_cons, hfiltA,
    hfiltB, filter_key_filter_not_contains _ _ _ hcont]
  simp [SkaffoldNode.Key]

/-- Witness for C5: one colliding File `x` (control fingerprint `[1]`,
overlay fingerprint `[2]`) under the Overwrite policy. -/
theorem union_overwrite_keeps_control_fingerprint_witness :
    (SkaffoldNode.dir "root"
        (([] : List SkaffoldNode) ++
          SkaffoldNode.file "x" "COPY" (some [1]) none ::
            ([] : List SkaffoldNode))).Children.filter
      (fun ch => ch.Key == "x")
      = [.file "x" "COPY" (some [1]) none] :=
  union_overwrite_keeps_control_fingerprint 1 ⟨OverwriteOnCollision⟩
    "root" "x" "COPY" "COPY" [1] [2] none none [] []
    [.file "x" "COPY" (some [2]) none]
    (.dir "root"
      (([] : List SkaffoldNode) ++
        SkaffoldNode.file "x" "COPY" (some [1]) none ::
          ([] : List SkaffoldNode)))
    [.dir "root" [.file "x" "COPY" (some [2]) none]]
    rfl (by decide) (by simp) (List.Mem.head _) rfl

end Ska

